import Mathlib

/-!
Shallow embedding of the server-controlled dharma reasoning loop in
`app/(preview)/api/chat/route.ts`, together with the pieces of
`lib/dharma.ts` and `lib/schema.ts` that the route uses.  External model
calls (`generateText` for step generation and synthesis, and the feedback
service inside `generateDharmaFeedback`) are abstracted as oracles: per
iteration the oracle says what the call returned (or that it threw).
Scores are embedded as rationals; JS number display formatting
(`toFixed`) is presentation-only and elided.
-/

attribute [local semireducible] Rat.mul Rat.add Rat.inv Rat.sub

namespace Dharma

/-- The four contemplative sub-scores (the numeric fields of `dharmaSchema`). -/
structure DharmaScores where
  mindfulness : ℚ
  emptiness : ℚ
  nonDuality : ℚ
  boundlessCare : ℚ
deriving DecidableEq, Repr

/-- One chat message (role/content pair). -/
structure Message where
  role : String
  content : String
deriving DecidableEq, Repr

/-- The structured payload the model is asked to embed in its response:
`singleStepSchema` = title, content, dharma (four sub-scores + rationale). -/
structure StepPayload where
  title : String
  content : String
  dharma : DharmaScores
  rationale : String
deriving DecidableEq, Repr

/-- `ScoreHistoryEntry` from `lib/dharma.ts`, as populated at
route.ts lines 146-156: step index, the four scores, their mean, content. -/
structure ScoreHistoryEntry where
  step : ℕ
  scores : DharmaScores
  mean : ℚ
  content : String
deriving DecidableEq, Repr

/-- The enriched step streamed to the frontend (route.ts lines 214-230).
`dharmaScore` keeps the exact rational; `.toFixed` formatting is elided. -/
structure EnrichedStep where
  title : String
  content : String
  dharma : DharmaScores
  rationale : String
  nextStep : String
  dharmaScore : ℚ
  stepIndex : ℕ
  maxSteps : ℕ
  serverFeedback : String
deriving DecidableEq, Repr

/-- An event written to the outbound data stream (`dataStream.writeData`). -/
inductive Event where
  | reasoningStep (step : EnrichedStep)
  | text (content : String)
deriving DecidableEq, Repr

/-- The mutable session state of the controller: `iterationState`
(stepIndex, allSteps, previousFeedback) plus `scoreHistory`, the events
written so far, and whether the outer per-step catch fired (`aborted`). -/
structure SessionState where
  stepIndex : ℕ
  scoreHistory : List ScoreHistoryEntry
  allSteps : List EnrichedStep
  previousFeedback : String
  events : List Event
  aborted : Bool
deriving DecidableEq, Repr

/-- Resolved configuration: `DHARMA_TARGET` and `DHARMA_MAX_STEPS`. -/
structure Config where
  target : ℚ
  maxSteps : ℕ
deriving DecidableEq, Repr

/-- `MINIMUM_STEPS = 4`, hard-coded at route.ts line 13. -/
def MINIMUM_STEPS : ℕ := 4

/-- Outcome of one `generateText` step-generation call: either the call
threw (`fatal`), or it returned text from which a JSON payload was or was
not extractable (the regex + `JSON.parse` at route.ts lines 117-122). -/
inductive GenOutcome where
  | fatal
  | resp (text : String) (payload : Option StepPayload)
deriving DecidableEq, Repr

/-- Outcome of one external service call used for feedback or synthesis. -/
inductive ServiceResult where
  | ok (text : String)
  | fail
deriving DecidableEq, Repr

/-- What the external world supplies to one loop iteration: the
step-generation outcome and the feedback-service outcome. -/
structure IterationInput where
  genOutcome : GenOutcome
  feedbackSvc : ServiceResult
deriving DecidableEq, Repr

/-- Modelled from the spec: `mean` lives in `lib/dharma.ts`, which is not
among the sources here.  Per §4.1 the aggregate is the arithmetic mean of
the four sub-scores. -/
def mean (s : DharmaScores) : ℚ :=
  (s.mindfulness + s.emptiness + s.nonDuality + s.boundlessCare) / 4

/-- Modelled from the spec: the deterministic local fallback of
`generateDharmaFeedback` (`lib/dharma.ts`, not among the sources here).
Per §4.2, for each of the four dimensions scoring below target it appends
one canned sentence naming that dimension and a generic remedy; if no
dimension is below target it returns a single fixed message. -/
def fallbackFeedback (s : DharmaScores) (target : ℚ) : String :=
  let parts : List String :=
    (if s.mindfulness < target then
      ["Deepen mindfulness by monitoring your own reasoning process."] else []) ++
    (if s.emptiness < target then
      ["Strengthen emptiness by holding conclusions more provisionally."] else []) ++
    (if s.nonDuality < target then
      ["Enhance non-duality by recognizing interdependence and multiple perspectives."] else []) ++
    (if s.boundlessCare < target then
      ["Broaden boundless care by considering impact on all affected parties."] else [])
  if parts = [] then
    "All four dharma principles are well aligned. Maintain this contemplative quality."
  else
    String.intercalate " " parts

/-- Modelled from the spec: `generateDharmaFeedback` lives in
`lib/dharma.ts`, which is not among the sources here.  Per §4.2 it
delegates to an external service; if that call fails for any reason it
returns the deterministic local fallback instead of propagating the
failure.  The outcome of the external call is passed in as `svc`. -/
def generateDharmaFeedback (svc : ServiceResult) (currentScores : DharmaScores)
    (priorHistory : List ScoreHistoryEntry) (target : ℚ) : String :=
  match svc with
  | .ok text => text
  | .fail => fallbackFeedback currentScores target

/-- Modelled from the spec: `dharmaSchema` lives in `lib/schema.ts`, which
is not among the sources here.  Per §4.3/§6 the schema bounds each of the
four sub-scores to [0,1]; `singleStepSchema.parse` (route.ts line 139)
throws exactly when validation fails. -/
def validScores (s : DharmaScores) : Bool :=
  decide (0 ≤ s.mindfulness) && decide (s.mindfulness ≤ 1) &&
  decide (0 ≤ s.emptiness) && decide (s.emptiness ≤ 1) &&
  decide (0 ≤ s.nonDuality) && decide (s.nonDuality ≤ 1) &&
  decide (0 ≤ s.boundlessCare) && decide (s.boundlessCare ≤ 1)

/-- The inner parse-with-fallback of route.ts lines 113-136: use the
extracted JSON payload if there is one, otherwise synthesize the degraded
step (raw text as content, generic title, all sub-scores 0.5, flagged
rationale). -/
def extractStep (stepIndex : ℕ) (respText : String) (payload : Option StepPayload) :
    StepPayload :=
  match payload with
  | some p => p
  | none =>
    { title := "Reasoning Step " ++ toString stepIndex
      content := respText
      dharma := ⟨1/2, 1/2, 1/2, 1/2⟩
      rationale := "Auto-generated (parsing failed)" }

/-- Feedback injection (route.ts lines 57-62): before generating step
`stepIndex`, if `stepIndex > 1` and the previous feedback string is
truthy, push an attributed assistant note. -/
def mkFbNote (stepIndex : ℕ) (previousFeedback : String) : Option Message :=
  if 1 < stepIndex ∧ previousFeedback ≠ "" then
    some ⟨"assistant",
      "[Server Feedback from Step " ++ toString (stepIndex - 1) ++ "]: " ++ previousFeedback⟩
  else none

/-- The generate-step user instruction (route.ts lines 65-71). -/
def genPrompt (stepIndex maxSteps : ℕ) (previousFeedback : String) : String :=
  "Generate reasoning step " ++ toString stepIndex ++ " of " ++ toString maxSteps ++
  ". \nFocus on ONE specific aspect, method, or perspective. \nBe thorough in your analysis and evaluate your reasoning against the dharma principles." ++
  (if previousFeedback ≠ "" then "\n\nIncorporate the server feedback from your previous step." else "")

/-- The termination decision of route.ts lines 173-189: a strict priority
chain, max-steps ceiling first, then the minimum-steps floor, then the
target test.  Returns (shouldContinue, terminationReason). -/
def decideTermination (stepIndex maxSteps : ℕ) (score target : ℚ) : Bool × String :=
  if maxSteps ≤ stepIndex then (false, "max_steps_reached")
  else if stepIndex < MINIMUM_STEPS then (true, "minimum_steps_required")
  else if target ≤ score then (false, "target_reached")
  else (true, "continuing")

/-- Observables of one successful loop iteration, for stating properties:
which note was injected, the exact context sent, what history and scores
were passed to the feedback generator, the feedback produced, the score,
and the termination decision. -/
structure IterRecord where
  stepIndex : ℕ
  prevFeedback : String
  injectedNote : Option Message
  context : List Message
  historyPassed : List ScoreHistoryEntry
  scoresPassed : DharmaScores
  feedback : String
  score : ℚ
  cont : Bool
  reason : String
deriving DecidableEq, Repr

/-- Result of one iteration of the while-loop body. -/
structure IterOut where
  state : SessionState
  irec : Option IterRecord
  cont : Bool
deriving DecidableEq, Repr

/-- One iteration of the while-loop body (route.ts lines 49-244):
increment `stepIndex`, build the context (feedback note then the
generate-step instruction), call the model; on a thrown call the outer
catch sets `shouldContinue = false`; otherwise parse with fallback,
validate (a validation failure throws into the same outer catch), push
history, generate feedback on `scoreHistory.slice(0,-1)`, decide
termination, build and stream the enriched step. -/
def iterate (cfg : Config) (inp : IterationInput) (messages : List Message)
    (st : SessionState) : IterOut :=
  let idx := st.stepIndex + 1
  let fbNote := mkFbNote idx st.previousFeedback
  let contextMessages :=
    messages ++ fbNote.toList ++
      [⟨"user", genPrompt idx cfg.maxSteps st.previousFeedback⟩]
  match inp.genOutcome with
  | .fatal => ⟨{ st with stepIndex := idx, aborted := true }, none, false⟩
  | .resp text payload =>
    let stepData := extractStep idx text payload
    if validScores stepData.dharma then
      let score := mean stepData.dharma
      let hist := st.scoreHistory ++ [⟨idx, stepData.dharma, score, stepData.content⟩]
      let historyPassed := hist.dropLast
      let llmFeedback := generateDharmaFeedback inp.feedbackSvc stepData.dharma
        historyPassed cfg.target
      let dec := decideTermination idx cfg.maxSteps score cfg.target
      let enriched : EnrichedStep :=
        { title := stepData.title
          content := stepData.content
          dharma := stepData.dharma
          rationale := stepData.rationale
          nextStep := if dec.1 then "continue" else "finalAnswer"
          dharmaScore := score
          stepIndex := idx
          maxSteps := cfg.maxSteps
          serverFeedback := llmFeedback }
      ⟨{ stepIndex := idx
         scoreHistory := hist
         allSteps := st.allSteps ++ [enriched]
         previousFeedback := llmFeedback
         events := st.events ++ [.reasoningStep enriched]
         aborted := false },
       some ⟨idx, st.previousFeedback, fbNote, contextMessages, historyPassed,
         stepData.dharma, llmFeedback, score, dec.1, dec.2⟩,
       dec.1⟩
    else
      ⟨{ st with stepIndex := idx, aborted := true }, none, false⟩

/-- The while-loop of route.ts line 48, written with fuel.  Each iteration
increments `stepIndex` by exactly one, so with fuel at least
`maxSteps - stepIndex` the fuel never runs out before the loop guard
fails (`loopFuel_fuel_irrelevant` below); `runLoop` supplies such fuel. -/
def loopFuel (cfg : Config) (oracle : ℕ → IterationInput) (messages : List Message) :
    ℕ → SessionState → SessionState × List IterRecord
  | 0, st => (st, [])
  | fuel + 1, st =>
    if st.stepIndex < cfg.maxSteps then
      let out := iterate cfg (oracle (st.stepIndex + 1)) messages st
      if out.cont then
        let p := loopFuel cfg oracle messages fuel out.state
        (p.1, out.irec.toList ++ p.2)
      else (out.state, out.irec.toList)
    else (st, [])

/-- Initial session state (route.ts lines 36-46). -/
def initialState : SessionState :=
  { stepIndex := 0, scoreHistory := [], allSteps := [], previousFeedback := ""
    events := [], aborted := false }

/-- The whole server-controlled loop for one session. -/
def runLoop (cfg : Config) (oracle : ℕ → IterationInput) (messages : List Message) :
    SessionState × List IterRecord :=
  loopFuel cfg oracle messages cfg.maxSteps initialState

/-- Final session state of a run. -/
def runState (cfg : Config) (oracle : ℕ → IterationInput) (messages : List Message) :
    SessionState :=
  (runLoop cfg oracle messages).1

/-- The iteration records of a run, in iteration order. -/
def runTrace (cfg : Config) (oracle : ℕ → IterationInput) (messages : List Message) :
    List IterRecord :=
  (runLoop cfg oracle messages).2

/-- The synthesis prompt built after the loop (route.ts lines 251-259). -/
def synthesisPrompt (st : SessionState) : String :=
  "You have completed " ++ toString st.stepIndex ++ " reasoning steps:\n\n" ++
  String.intercalate "\n"
    (st.allSteps.enum.map (fun p =>
      "\nStep " ++ toString (p.1 + 1) ++ ": " ++ p.2.title ++ "\n" ++ p.2.content ++ "\n")) ++
  "\n\nNow provide a clear, concise final answer that synthesizes all of your reasoning. \nBe direct and actionable. This is your final response to the user."

/-- The single text event content after the loop (route.ts lines 273-294):
the synthesized answer on success, the fixed diagnostic on failure. -/
def synthesisText (synth : ServiceResult) : String :=
  match synth with
  | .ok text => text
  | .fail => "Error generating final synthesis. Please review the reasoning steps above."

/-- Everything written to the outbound stream during one session, in
order: the per-step events from the loop, then exactly one text event. -/
def runEvents (cfg : Config) (oracle : ℕ → IterationInput) (messages : List Message)
    (synth : ServiceResult) : List Event :=
  (runState cfg oracle messages).events ++ [Event.text (synthesisText synth)]

/-! ### Characterization of one loop iteration -/

/-- The score-history entry pushed by a successful iteration. -/
def successEntry (idx : ℕ) (p : StepPayload) : ScoreHistoryEntry :=
  ⟨idx, p.dharma, mean p.dharma, p.content⟩

/-- The feedback produced by a successful iteration: the current scores
together with all strictly prior history. -/
def successFeedback (cfg : Config) (svc : ServiceResult) (st : SessionState)
    (p : StepPayload) : String :=
  generateDharmaFeedback svc p.dharma st.scoreHistory cfg.target

/-- The enriched step built by a successful iteration. -/
def successStep (cfg : Config) (svc : ServiceResult) (st : SessionState)
    (p : StepPayload) : EnrichedStep :=
  ⟨p.title, p.content, p.dharma, p.rationale,
   if (decideTermination (st.stepIndex + 1) cfg.maxSteps (mean p.dharma) cfg.target).1
     then "continue" else "finalAnswer",
   mean p.dharma, st.stepIndex + 1, cfg.maxSteps, successFeedback cfg svc st p⟩

/-- The post-state of a successful iteration. -/
def successState (cfg : Config) (svc : ServiceResult) (st : SessionState)
    (p : StepPayload) : SessionState :=
  { stepIndex := st.stepIndex + 1
    scoreHistory := st.scoreHistory ++ [successEntry (st.stepIndex + 1) p]
    allSteps := st.allSteps ++ [successStep cfg svc st p]
    previousFeedback := successFeedback cfg svc st p
    events := st.events ++ [.reasoningStep (successStep cfg svc st p)]
    aborted := false }

/-- The observables of a successful iteration. -/
def successRecord (cfg : Config) (svc : ServiceResult) (messages : List Message)
    (st : SessionState) (p : StepPayload) : IterRecord :=
  ⟨st.stepIndex + 1, st.previousFeedback, mkFbNote (st.stepIndex + 1) st.previousFeedback,
   messages ++ (mkFbNote (st.stepIndex + 1) st.previousFeedback).toList ++
     [⟨"user", genPrompt (st.stepIndex + 1) cfg.maxSteps st.previousFeedback⟩],
   st.scoreHistory, p.dharma, successFeedback cfg svc st p, mean p.dharma,
   (decideTermination (st.stepIndex + 1) cfg.maxSteps (mean p.dharma) cfg.target).1,
   (decideTermination (st.stepIndex + 1) cfg.maxSteps (mean p.dharma) cfg.target).2⟩

/-- The post-state of an aborted iteration (thrown call or failed schema
validation): only `stepIndex` and the abort flag change. -/
def abortState (st : SessionState) : SessionState :=
  { st with stepIndex := st.stepIndex + 1, aborted := true }

theorem iterate_fatal (cfg : Config) (inp : IterationInput) (messages : List Message)
    (st : SessionState) (h : inp.genOutcome = .fatal) :
    iterate cfg inp messages st = ⟨abortState st, none, false⟩ := by
  simp [iterate, h, abortState]

theorem iterate_invalid (cfg : Config) (inp : IterationInput) (messages : List Message)
    (st : SessionState) (text : String) (payload : Option StepPayload)
    (h : inp.genOutcome = .resp text payload)
    (hv : validScores (extractStep (st.stepIndex + 1) text payload).dharma = false) :
    iterate cfg inp messages st = ⟨abortState st, none, false⟩ := by
  simp [iterate, h, hv, abortState]

theorem iterate_success (cfg : Config) (inp : IterationInput) (messages : List Message)
    (st : SessionState) (text : String) (payload : Option StepPayload)
    (h : inp.genOutcome = .resp text payload)
    (hv : validScores (extractStep (st.stepIndex + 1) text payload).dharma = true) :
    iterate cfg inp messages st =
      ⟨successState cfg inp.feedbackSvc st (extractStep (st.stepIndex + 1) text payload),
       some (successRecord cfg inp.feedbackSvc messages st
         (extractStep (st.stepIndex + 1) text payload)),
       (decideTermination (st.stepIndex + 1) cfg.maxSteps
         (mean (extractStep (st.stepIndex + 1) text payload).dharma) cfg.target).1⟩ := by
  simp [iterate, h, hv, successState, successRecord, successStep, successEntry,
    successFeedback]

/-- Every iteration either aborts (keeping history, steps and events) or
succeeds with the canonical post-state and record. -/
theorem iterate_shape (cfg : Config) (inp : IterationInput) (messages : List Message)
    (st : SessionState) :
    iterate cfg inp messages st = ⟨abortState st, none, false⟩ ∨
    ∃ p : StepPayload,
      iterate cfg inp messages st =
        ⟨successState cfg inp.feedbackSvc st p,
         some (successRecord cfg inp.feedbackSvc messages st p),
         (decideTermination (st.stepIndex + 1) cfg.maxSteps (mean p.dharma) cfg.target).1⟩ := by
  cases h : inp.genOutcome with
  | fatal => exact Or.inl (iterate_fatal cfg inp messages st h)
  | resp text payload =>
    by_cases hv : validScores (extractStep (st.stepIndex + 1) text payload).dharma = true
    · exact Or.inr ⟨extractStep (st.stepIndex + 1) text payload,
        iterate_success cfg inp messages st text payload h hv⟩
    · exact Or.inl (iterate_invalid cfg inp messages st text payload h
        (by simpa using hv))

/-! ### The loop never exhausts its fuel -/

/-- One-step unfolding of the loop. -/
theorem loopFuel_succ (cfg : Config) (oracle : ℕ → IterationInput)
    (messages : List Message) (fuel : ℕ) (st : SessionState) :
    loopFuel cfg oracle messages (fuel + 1) st =
      if st.stepIndex < cfg.maxSteps then
        let out := iterate cfg (oracle (st.stepIndex + 1)) messages st
        if out.cont then
          let p := loopFuel cfg oracle messages fuel out.state
          (p.1, out.irec.toList ++ p.2)
        else (out.state, out.irec.toList)
      else (st, []) := rfl

/-- With fuel at least `maxSteps - stepIndex`, adding more fuel does not
change the run: the loop guard fails before the fuel does, so the fuelled
translation coincides with the source while-loop. -/
theorem loopFuel_fuel_irrelevant (cfg : Config) (oracle : ℕ → IterationInput)
    (messages : List Message) (fuel : ℕ) :
    ∀ st : SessionState, cfg.maxSteps ≤ st.stepIndex + fuel →
      loopFuel cfg oracle messages (fuel + 1) st = loopFuel cfg oracle messages fuel st := by
  induction fuel with
  | zero =>
    intro st h
    rw [loopFuel_succ]
    simp only [loopFuel]
    rw [if_neg (by omega)]
  | succ fuel ih =>
    intro st h
    by_cases hg : st.stepIndex < cfg.maxSteps
    · rcases iterate_shape cfg (oracle (st.stepIndex + 1)) messages st with hab | ⟨p, hsucc⟩
      · rw [loopFuel_succ, loopFuel_succ, if_pos hg, if_pos hg, hab]
        simp
      · rw [loopFuel_succ, loopFuel_succ, if_pos hg, if_pos hg, hsucc]
        by_cases hc : (decideTermination (st.stepIndex + 1) cfg.maxSteps
            (mean p.dharma) cfg.target).1
        · simp only [hc, if_true]
          rw [ih (successState cfg (oracle (st.stepIndex + 1)).feedbackSvc st p)
            (by simp [successState]; omega)]
        · simp only [hc]
          simp
    · rw [loopFuel_succ, loopFuel_succ, if_neg hg, if_neg hg]

/-! ### Loop invariants -/

/-- Counting: each trace record corresponds to exactly one recorded step
and one history entry, and `stepIndex` counts the records plus one more
for an aborted iteration. -/
theorem loopFuel_counts (cfg : Config) (oracle : ℕ → IterationInput)
    (messages : List Message) : ∀ (fuel : ℕ) (st fin : SessionState)
    (tr : List IterRecord), st.aborted = false →
    loopFuel cfg oracle messages fuel st = (fin, tr) →
    fin.allSteps.length = st.allSteps.length + tr.length ∧
    fin.scoreHistory.length = st.scoreHistory.length + tr.length ∧
    fin.stepIndex = st.stepIndex + tr.length + (if fin.aborted then 1 else 0) := by
  intro fuel
  induction fuel with
  | zero =>
    intro st fin tr hA0 h
    simp only [loopFuel, Prod.mk.injEq] at h
    obtain ⟨rfl, rfl⟩ := h
    simp [hA0]
  | succ fuel ih =>
    intro st fin tr hA0 h
    rw [loopFuel_succ] at h
    by_cases hg : st.stepIndex < cfg.maxSteps
    · rw [if_pos hg] at h
      rcases iterate_shape cfg (oracle (st.stepIndex + 1)) messages st with hab | ⟨p, hsucc⟩
      · rw [hab] at h
        simp only [Prod.mk.injEq] at h
        obtain ⟨rfl, rfl⟩ := h
        simp [abortState]
      · rw [hsucc] at h
        by_cases hc : (decideTermination (st.stepIndex + 1) cfg.maxSteps
            (mean p.dharma) cfg.target).1 = true
        · simp only [hc, if_true] at h
          rcases hq : loopFuel cfg oracle messages fuel
              (successState cfg (oracle (st.stepIndex + 1)).feedbackSvc st p) with ⟨fin', tr'⟩
          rw [hq] at h
          simp only [Prod.mk.injEq] at h
          obtain ⟨rfl, rfl⟩ := h
          have hrec := ih _ _ _ (by simp [successState]) hq
          simp only [successState] at hrec
          simp only [List.length_append, List.length_cons] at *
          cases hA : fin'.aborted <;> simp [hA] at hrec ⊢ <;> omega
        · simp only [Bool.not_eq_true] at hc
          simp only [hc, Bool.false_eq_true, if_false, Prod.mk.injEq] at h
          obtain ⟨rfl, rfl⟩ := h
          simp [successState]
    · rw [if_neg hg] at h
      simp only [Prod.mk.injEq] at h
      obtain ⟨rfl, rfl⟩ := h
      simp [hA0]

/-- A stop decision means the max-steps ceiling or the minimum-steps
floor has been passed. -/
theorem decideTermination_stop (stepIndex maxSteps : ℕ) (score target : ℚ)
    (h : (decideTermination stepIndex maxSteps score target).1 = false) :
    maxSteps ≤ stepIndex ∨ MINIMUM_STEPS ≤ stepIndex := by
  unfold decideTermination at h
  split at h
  · omega
  · split at h
    · simp at h
    · split at h
      · omega
      · simp at h

/-- The step counter never exceeds `maxSteps`: the guard is checked
before every iteration and one iteration adds exactly one. -/
theorem loopFuel_upper (cfg : Config) (oracle : ℕ → IterationInput)
    (messages : List Message) : ∀ (fuel : ℕ) (st fin : SessionState)
    (tr : List IterRecord), st.stepIndex ≤ cfg.maxSteps →
    loopFuel cfg oracle messages fuel st = (fin, tr) →
    fin.stepIndex ≤ cfg.maxSteps := by
  intro fuel
  induction fuel with
  | zero =>
    intro st fin tr hle h
    simp only [loopFuel, Prod.mk.injEq] at h
    obtain ⟨rfl, rfl⟩ := h
    exact hle
  | succ fuel ih =>
    intro st fin tr hle h
    rw [loopFuel_succ] at h
    by_cases hg : st.stepIndex < cfg.maxSteps
    · rw [if_pos hg] at h
      rcases iterate_shape cfg (oracle (st.stepIndex + 1)) messages st with hab | ⟨p, hsucc⟩
      · rw [hab] at h
        simp only [Prod.mk.injEq] at h
        obtain ⟨rfl, rfl⟩ := h
        simp only [abortState]
        omega
      · rw [hsucc] at h
        by_cases hc : (decideTermination (st.stepIndex + 1) cfg.maxSteps
            (mean p.dharma) cfg.target).1 = true
        · simp only [hc, if_true] at h
          rcases hq : loopFuel cfg oracle messages fuel
              (successState cfg (oracle (st.stepIndex + 1)).feedbackSvc st p) with ⟨fin', tr'⟩
          rw [hq] at h
          simp only [Prod.mk.injEq] at h
          obtain ⟨rfl, rfl⟩ := h
          exact ih _ _ _ (by simp only [successState]; omega) hq
        · simp only [Bool.not_eq_true] at hc
          simp only [hc, Bool.false_eq_true, if_false, Prod.mk.injEq] at h
          obtain ⟨rfl, rfl⟩ := h
          simp only [successState]
          omega
    · rw [if_neg hg] at h
      simp only [Prod.mk.injEq] at h
      obtain ⟨rfl, rfl⟩ := h
      exact hle

/-- How the loop can exit, given enough fuel (which `runLoop` supplies):
either an iteration aborted, or the guard failed (`maxSteps` reached), or
the last decision was a stop, which requires the minimum-steps floor to
have been passed. -/
theorem loopFuel_exit (cfg : Config) (oracle : ℕ → IterationInput)
    (messages : List Message) : ∀ (fuel : ℕ) (st fin : SessionState)
    (tr : List IterRecord), cfg.maxSteps ≤ st.stepIndex + fuel →
    loopFuel cfg oracle messages fuel st = (fin, tr) →
    fin.aborted = true ∨ cfg.maxSteps ≤ fin.stepIndex ∨ MINIMUM_STEPS ≤ fin.stepIndex := by
  intro fuel
  induction fuel with
  | zero =>
    intro st fin tr hfu h
    simp only [loopFuel, Prod.mk.injEq] at h
    obtain ⟨rfl, rfl⟩ := h
    omega
  | succ fuel ih =>
    intro st fin tr hfu h
    rw [loopFuel_succ] at h
    by_cases hg : st.stepIndex < cfg.maxSteps
    · rw [if_pos hg] at h
      rcases iterate_shape cfg (oracle (st.stepIndex + 1)) messages st with hab | ⟨p, hsucc⟩
      · rw [hab] at h
        simp only [Prod.mk.injEq] at h
        obtain ⟨rfl, rfl⟩ := h
        simp [abortState]
      · rw [hsucc] at h
        by_cases hc : (decideTermination (st.stepIndex + 1) cfg.maxSteps
            (mean p.dharma) cfg.target).1 = true
        · simp only [hc, if_true] at h
          rcases hq : loopFuel cfg oracle messages fuel
              (successState cfg (oracle (st.stepIndex + 1)).feedbackSvc st p) with ⟨fin', tr'⟩
          rw [hq] at h
          simp only [Prod.mk.injEq] at h
          obtain ⟨rfl, rfl⟩ := h
          exact ih _ _ _ (by simp only [successState]; omega) hq
        · simp only [Bool.not_eq_true] at hc
          simp only [hc, Bool.false_eq_true, if_false, Prod.mk.injEq] at h
          obtain ⟨rfl, rfl⟩ := h
          rcases decideTermination_stop _ _ _ _ hc with h1 | h1
          · right; left; simp only [successState]; omega
          · right; right; simp only [successState]; omega
    · rw [if_neg hg] at h
      simp only [Prod.mk.injEq] at h
      obtain ⟨rfl, rfl⟩ := h
      omega

/-- Record-local properties of every iteration in the trace: step indices
are consecutive, the injected note and the context have the documented
shape, the recorded decision is the termination chain applied to the
recorded score, and every record except possibly the last one decided to
continue. -/
theorem loopFuel_records (cfg : Config) (oracle : ℕ → IterationInput)
    (messages : List Message) : ∀ (fuel : ℕ) (st fin : SessionState)
    (tr : List IterRecord), loopFuel cfg oracle messages fuel st = (fin, tr) →
    tr.map (fun r => r.stepIndex) = List.range' (st.stepIndex + 1) tr.length ∧
    (∀ r ∈ tr,
      r.injectedNote = mkFbNote r.stepIndex r.prevFeedback ∧
      r.context = messages ++ r.injectedNote.toList ++
        [⟨"user", genPrompt r.stepIndex cfg.maxSteps r.prevFeedback⟩] ∧
      (r.cont, r.reason) =
        decideTermination r.stepIndex cfg.maxSteps r.score cfg.target) ∧
    (∀ (i : ℕ) (h1 : i < tr.length), i + 1 < tr.length →
      (tr.get ⟨i, h1⟩).cont = true) := by
  intro fuel
  induction fuel with
  | zero =>
    intro st fin tr h
    simp only [loopFuel, Prod.mk.injEq] at h
    obtain ⟨rfl, rfl⟩ := h
    simp
  | succ fuel ih =>
    intro st fin tr h
    rw [loopFuel_succ] at h
    by_cases hg : st.stepIndex < cfg.maxSteps
    · rw [if_pos hg] at h
      rcases iterate_shape cfg (oracle (st.stepIndex + 1)) messages st with hab | ⟨p, hsucc⟩
      · rw [hab] at h
        simp only [Prod.mk.injEq] at h
        obtain ⟨rfl, rfl⟩ := h
        simp
      · rw [hsucc] at h
        by_cases hc : (decideTermination (st.stepIndex + 1) cfg.maxSteps
            (mean p.dharma) cfg.target).1 = true
        · simp only [hc, if_true] at h
          rcases hq : loopFuel cfg oracle messages fuel
              (successState cfg (oracle (st.stepIndex + 1)).feedbackSvc st p) with ⟨fin', tr'⟩
          rw [hq] at h
          simp only [Prod.mk.injEq] at h
          obtain ⟨rfl, rfl⟩ := h
          obtain ⟨ihMap, ihMem, ihCont⟩ := ih _ _ _ hq
          simp only [successState] at ihMap
          refine ⟨?_, ?_, ?_⟩
          · simp only [Option.toList_some, List.singleton_append, List.map_cons, ihMap,
              List.length_cons, List.range'_succ, successRecord]
          · intro r hr
            simp only [Option.toList_some, List.singleton_append, List.mem_cons] at hr
            rcases hr with rfl | hr
            · exact ⟨rfl, rfl, by simp [successRecord]⟩
            · exact ihMem r hr
          · intro i h1 h2
            simp only [Option.toList_some, List.singleton_append, List.length_cons] at h1 h2
            match i, h1, h2 with
            | 0, _, _ => simpa [successRecord] using hc
            | i + 1, h1, h2 =>
              simpa using ihCont i (by simpa using h1) (by simpa using h2)
        · simp only [Bool.not_eq_true] at hc
          simp only [hc, Bool.false_eq_true, if_false, Prod.mk.injEq] at h
          obtain ⟨rfl, rfl⟩ := h
          refine ⟨by simp [successRecord, List.range'_succ], ?_, ?_⟩
          · intro r hr
            simp only [Option.toList_some, List.mem_singleton] at hr
            subst hr
            exact ⟨rfl, rfl, by simp [successRecord]⟩
          · intro i h1 h2
            simp at h2
    · rw [if_neg hg] at h
      simp only [Prod.mk.injEq] at h
      obtain ⟨rfl, rfl⟩ := h
      simp

/-- The feedback chain: the first iteration of the loop body sees the
entry feedback and history, and every later iteration sees exactly the
feedback produced by the iteration right before it. -/
theorem loopFuel_chain (cfg : Config) (oracle : ℕ → IterationInput)
    (messages : List Message) : ∀ (fuel : ℕ) (st fin : SessionState)
    (tr : List IterRecord), loopFuel cfg oracle messages fuel st = (fin, tr) →
    (∀ h0 : 0 < tr.length,
      (tr.get ⟨0, h0⟩).prevFeedback = st.previousFeedback ∧
      (tr.get ⟨0, h0⟩).historyPassed = st.scoreHistory) ∧
    (∀ (i : ℕ) (h1 : i < tr.length) (h2 : i + 1 < tr.length),
      (tr.get ⟨i + 1, h2⟩).prevFeedback = (tr.get ⟨i, h1⟩).feedback) := by
  intro fuel
  induction fuel with
  | zero =>
    intro st fin tr h
    simp only [loopFuel, Prod.mk.injEq] at h
    obtain ⟨rfl, rfl⟩ := h
    simp
  | succ fuel ih =>
    intro st fin tr h
    rw [loopFuel_succ] at h
    by_cases hg : st.stepIndex < cfg.maxSteps
    · rw [if_pos hg] at h
      rcases iterate_shape cfg (oracle (st.stepIndex + 1)) messages st with hab | ⟨p, hsucc⟩
      · rw [hab] at h
        simp only [Prod.mk.injEq] at h
        obtain ⟨rfl, rfl⟩ := h
        simp
      · rw [hsucc] at h
        by_cases hc : (decideTermination (st.stepIndex + 1) cfg.maxSteps
            (mean p.dharma) cfg.target).1 = true
        · simp only [hc, if_true] at h
          rcases hq : loopFuel cfg oracle messages fuel
              (successState cfg (oracle (st.stepIndex + 1)).feedbackSvc st p) with ⟨fin', tr'⟩
          rw [hq] at h
          simp only [Prod.mk.injEq] at h
          obtain ⟨rfl, rfl⟩ := h
          obtain ⟨ihHead, ihChain⟩ := ih _ _ _ hq
          constructor
          · intro h0
            exact ⟨rfl, rfl⟩
          · intro i h1 h2
            simp only [Option.toList_some, List.singleton_append, List.length_cons] at h1 h2
            match i, h1, h2 with
            | 0, _, h2 =>
              have h0' : 0 < tr'.length := by omega
              have := (ihHead h0').1
              simp only [successState] at this
              simpa [List.get] using this
            | i + 1, h1, h2 =>
              simpa [List.get] using ihChain i (by omega) (by omega)
        · simp only [Bool.not_eq_true] at hc
          simp only [hc, Bool.false_eq_true, if_false, Prod.mk.injEq] at h
          obtain ⟨rfl, rfl⟩ := h
          constructor
          · intro h0
            exact ⟨rfl, rfl⟩
          · intro i h1 h2
            simp at h2
    · rw [if_neg hg] at h
      simp only [Prod.mk.injEq] at h
      obtain ⟨rfl, rfl⟩ := h
      simp

/-- Exactness of the history passed to the feedback generator: the
iteration with record index `i` passes precisely the first
`st.stepIndex + i` entries of the final score history, and their step
indices are `1, …, st.stepIndex + i`. -/
theorem loopFuel_history (cfg : Config) (oracle : ℕ → IterationInput)
    (messages : List Message) : ∀ (fuel : ℕ) (st fin : SessionState)
    (tr : List IterRecord),
    st.scoreHistory.length = st.stepIndex →
    st.scoreHistory.map (fun e => e.step) = List.range' 1 st.stepIndex →
    loopFuel cfg oracle messages fuel st = (fin, tr) →
    (∃ nh, fin.scoreHistory = st.scoreHistory ++ nh) ∧
    (∀ (i : ℕ) (hi : i < tr.length),
      (tr.get ⟨i, hi⟩).historyPassed.map (fun e => e.step) =
        List.range' 1 (st.stepIndex + i) ∧
      (tr.get ⟨i, hi⟩).historyPassed = fin.scoreHistory.take (st.stepIndex + i)) := by
  intro fuel
  induction fuel with
  | zero =>
    intro st fin tr hLen hMap h
    simp only [loopFuel, Prod.mk.injEq] at h
    obtain ⟨rfl, rfl⟩ := h
    exact ⟨⟨[], by simp⟩, by simp⟩
  | succ fuel ih =>
    intro st fin tr hLen hMap h
    rw [loopFuel_succ] at h
    by_cases hg : st.stepIndex < cfg.maxSteps
    · rw [if_pos hg] at h
      rcases iterate_shape cfg (oracle (st.stepIndex + 1)) messages st with hab | ⟨p, hsucc⟩
      · rw [hab] at h
        simp only [Prod.mk.injEq] at h
        obtain ⟨rfl, rfl⟩ := h
        exact ⟨⟨[], by simp [abortState]⟩, by simp⟩
      · rw [hsucc] at h
        have hLen' : (successState cfg (oracle (st.stepIndex + 1)).feedbackSvc st p).scoreHistory.length =
            (successState cfg (oracle (st.stepIndex + 1)).feedbackSvc st p).stepIndex := by
          simp [successState, hLen]
        have hMap' : (successState cfg (oracle (st.stepIndex + 1)).feedbackSvc st p).scoreHistory.map
            (fun e => e.step) =
            List.range' 1 (successState cfg (oracle (st.stepIndex + 1)).feedbackSvc st p).stepIndex := by
          simp only [successState, successEntry, List.map_append, hMap, List.map_cons,
            List.map_nil]
          rw [List.range'_concat]
          simp [Nat.add_comm]
        by_cases hc : (decideTermination (st.stepIndex + 1) cfg.maxSteps
            (mean p.dharma) cfg.target).1 = true
        · simp only [hc, if_true] at h
          rcases hq : loopFuel cfg oracle messages fuel
              (successState cfg (oracle (st.stepIndex + 1)).feedbackSvc st p) with ⟨fin', tr'⟩
          rw [hq] at h
          simp only [Prod.mk.injEq] at h
          obtain ⟨rfl, rfl⟩ := h
          obtain ⟨⟨nh, hnh⟩, ihRec⟩ := ih _ _ _ hLen' hMap' hq
          simp only [successState] at hnh
          constructor
          · exact ⟨[successEntry (st.stepIndex + 1) p] ++ nh, by
              rw [hnh, List.append_assoc]⟩
          · intro i hi
            simp only [Option.toList_some, List.singleton_append, List.length_cons] at hi
            match i, hi with
            | 0, _ =>
              refine ⟨by simpa [successRecord] using hMap, ?_⟩
              show (successRecord cfg (oracle (st.stepIndex + 1)).feedbackSvc messages st p).historyPassed =
                fin'.scoreHistory.take (st.stepIndex + 0)
              rw [hnh]
              simp only [successRecord, Nat.add_zero, List.append_assoc]
              exact (List.take_left' hLen).symm
            | i + 1, hi =>
              have hidx : (successState cfg (oracle (st.stepIndex + 1)).feedbackSvc st p).stepIndex + i
                  = st.stepIndex + (i + 1) := by
                simp only [successState]
                omega
              have hrec := ihRec i (by omega)
              rw [hidx] at hrec
              exact hrec
        · simp only [Bool.not_eq_true] at hc
          simp only [hc, Bool.false_eq_true, if_false, Prod.mk.injEq] at h
          obtain ⟨rfl, rfl⟩ := h
          constructor
          · exact ⟨[successEntry (st.stepIndex + 1) p], by simp [successState]⟩
          · intro i hi
            simp only [Option.toList_some, List.length_singleton] at hi
            match i, hi with
            | 0, _ =>
              refine ⟨by simpa [successRecord] using hMap, ?_⟩
              show (successRecord cfg (oracle (st.stepIndex + 1)).feedbackSvc messages st p).historyPassed =
                (successState cfg (oracle (st.stepIndex + 1)).feedbackSvc st p).scoreHistory.take
                  (st.stepIndex + 0)
              simp only [successRecord, successState, Nat.add_zero]
              exact (List.take_left' (by simp [hLen])).symm
    · rw [if_neg hg] at h
      simp only [Prod.mk.injEq] at h
      obtain ⟨rfl, rfl⟩ := h
      exact ⟨⟨[], by simp⟩, by simp⟩

/-- The loop only appends reasoning-step events, one per recorded step. -/
theorem loopFuel_events (cfg : Config) (oracle : ℕ → IterationInput)
    (messages : List Message) : ∀ (fuel : ℕ) (st fin : SessionState)
    (tr : List IterRecord), loopFuel cfg oracle messages fuel st = (fin, tr) →
    ∃ new : List EnrichedStep,
      fin.allSteps = st.allSteps ++ new ∧
      fin.events = st.events ++ new.map Event.reasoningStep := by
  intro fuel
  induction fuel with
  | zero =>
    intro st fin tr h
    simp only [loopFuel, Prod.mk.injEq] at h
    obtain ⟨rfl, rfl⟩ := h
    exact ⟨[], by simp⟩
  | succ fuel ih =>
    intro st fin tr h
    rw [loopFuel_succ] at h
    by_cases hg : st.stepIndex < cfg.maxSteps
    · rw [if_pos hg] at h
      rcases iterate_shape cfg (oracle (st.stepIndex + 1)) messages st with hab | ⟨p, hsucc⟩
      · rw [hab] at h
        simp only [Prod.mk.injEq] at h
        obtain ⟨rfl, rfl⟩ := h
        exact ⟨[], by simp [abortState]⟩
      · rw [hsucc] at h
        by_cases hc : (decideTermination (st.stepIndex + 1) cfg.maxSteps
            (mean p.dharma) cfg.target).1 = true
        · simp only [hc, if_true] at h
          rcases hq : loopFuel cfg oracle messages fuel
              (successState cfg (oracle (st.stepIndex + 1)).feedbackSvc st p) with ⟨fin', tr'⟩
          rw [hq] at h
          simp only [Prod.mk.injEq] at h
          obtain ⟨rfl, rfl⟩ := h
          obtain ⟨new, h1, h2⟩ := ih _ _ _ hq
          simp only [successState] at h1 h2
          exact ⟨successStep cfg (oracle (st.stepIndex + 1)).feedbackSvc st p :: new, by
            rw [h1]
            simp, by
            rw [h2]
            simp⟩
        · simp only [Bool.not_eq_true] at hc
          simp only [hc, Bool.false_eq_true, if_false, Prod.mk.injEq] at h
          obtain ⟨rfl, rfl⟩ := h
          exact ⟨[successStep cfg (oracle (st.stepIndex + 1)).feedbackSvc st p], by
            simp [successState]⟩
    · rw [if_neg hg] at h
      simp only [Prod.mk.injEq] at h
      obtain ⟨rfl, rfl⟩ := h
      exact ⟨[], by simp⟩

/-! ### Run-level corollaries -/

theorem runLoop_eq (cfg : Config) (oracle : ℕ → IterationInput) (messages : List Message) :
    runLoop cfg oracle messages = (runState cfg oracle messages, runTrace cfg oracle messages) :=
  rfl

/-- Step, history and trace counts for a full run. -/
theorem run_counts (cfg : Config) (oracle : ℕ → IterationInput) (messages : List Message) :
    (runState cfg oracle messages).allSteps.length = (runTrace cfg oracle messages).length ∧
    (runState cfg oracle messages).scoreHistory.length = (runTrace cfg oracle messages).length ∧
    (runState cfg oracle messages).stepIndex = (runTrace cfg oracle messages).length +
      (if (runState cfg oracle messages).aborted then 1 else 0) := by
  have h := loopFuel_counts cfg oracle messages cfg.maxSteps initialState
    (runState cfg oracle messages) (runTrace cfg oracle messages) rfl (runLoop_eq cfg oracle messages)
  simpa [initialState] using h

/-- The step counter of a full run never exceeds `maxSteps`. -/
theorem run_upper (cfg : Config) (oracle : ℕ → IterationInput) (messages : List Message) :
    (runState cfg oracle messages).stepIndex ≤ cfg.maxSteps :=
  loopFuel_upper cfg oracle messages cfg.maxSteps initialState
    (runState cfg oracle messages) (runTrace cfg oracle messages)
    (by simp [initialState]) (runLoop_eq cfg oracle messages)

/-- How a full run can exit. -/
theorem run_exit (cfg : Config) (oracle : ℕ → IterationInput) (messages : List Message) :
    (runState cfg oracle messages).aborted = true ∨
    cfg.maxSteps ≤ (runState cfg oracle messages).stepIndex ∨
    MINIMUM_STEPS ≤ (runState cfg oracle messages).stepIndex :=
  loopFuel_exit cfg oracle messages cfg.maxSteps initialState
    (runState cfg oracle messages) (runTrace cfg oracle messages)
    (by simp [initialState]) (runLoop_eq cfg oracle messages)

/-- If the images of a list under `f` are `s, s+1, …`, then the image of
the element at index `i` is `s + i`. -/
theorem map_range'_get {α : Type} (f : α → ℕ) (l : List α) (s : ℕ)
    (h : l.map f = List.range' s l.length) (i : ℕ) (hi : i < l.length) :
    f (l.get ⟨i, hi⟩) = s + i := by
  have h3 : (l.map f)[i]? = (List.range' s l.length)[i]? := by rw [h]
  rw [List.getElem?_map, List.getElem?_range' s 1 hi] at h3
  rw [List.getElem?_eq_getElem hi] at h3
  simp only [Option.map_some', Option.some.injEq, Nat.one_mul] at h3
  exact h3

/-- Step indices of a full run's trace are `1, …, length`. -/
theorem run_trace_stepIndex (cfg : Config) (oracle : ℕ → IterationInput)
    (messages : List Message) (i : ℕ) (hi : i < (runTrace cfg oracle messages).length) :
    ((runTrace cfg oracle messages).get ⟨i, hi⟩).stepIndex = i + 1 := by
  have h := (loopFuel_records cfg oracle messages cfg.maxSteps initialState
    (runState cfg oracle messages) (runTrace cfg oracle messages)
    (runLoop_eq cfg oracle messages)).1
  simp only [initialState] at h
  have h2 := map_range'_get (fun r => r.stepIndex) (runTrace cfg oracle messages)
    (0 + 1) (by simpa using h) i hi
  simpa [Nat.add_comm] using h2

end Dharma

namespace Dharma

/-! ### Concrete sessions used to exercise the theorems -/

/-- A well-formed payload scoring 0.9 on every dimension. -/
def goodPayload : StepPayload :=
  ⟨"Initial Analysis", "Consider the problem.", ⟨9/10, 9/10, 9/10, 9/10⟩, "aware"⟩

/-- An oracle whose step-generation call always succeeds with
`goodPayload` and whose feedback service always answers "fb". -/
def goodOracle : ℕ → IterationInput :=
  fun _ => ⟨.resp "raw" (some goodPayload), .ok "fb"⟩

/-- A payload whose mindfulness sub-score lies outside [0,1]. -/
def badPayload : StepPayload :=
  ⟨"Bad", "oops", ⟨3/2, 1/2, 1/2, 1/2⟩, "r"⟩

/-- An oracle whose step-generation call always returns an extractable
payload with an out-of-range sub-score. -/
def badOracle : ℕ → IterationInput :=
  fun _ => ⟨.resp "raw" (some badPayload), .ok "fb"⟩

/-- An oracle whose step-generation call throws on iteration 2 and
succeeds otherwise. -/
def fatalAt2Oracle : ℕ → IterationInput :=
  fun n => if n = 2 then ⟨.fatal, .ok "fb"⟩ else ⟨.resp "raw" (some goodPayload), .ok "fb"⟩

/-! ### Claims -/

/-- C1: after each generated step the recorded termination decision is the
strict priority chain in this order — `stepIndex >= maxSteps` stops with
"max_steps_reached"; else `stepIndex < minimumSteps` continues with
"minimum_steps_required" regardless of score; else score `>= target`
stops with "target_reached"; else continue with "continuing" — and in a
degenerate configuration with `maxSteps < minimumSteps` the loop still
terminates having produced at most `maxSteps` steps. -/
theorem C1_termination_priority_chain (cfg : Config) (oracle : ℕ → IterationInput)
    (messages : List Message) :
    (∀ (i : ℕ) (hi : i < (runTrace cfg oracle messages).length),
      (((runTrace cfg oracle messages).get ⟨i, hi⟩).cont,
       ((runTrace cfg oracle messages).get ⟨i, hi⟩).reason) =
        (if cfg.maxSteps ≤ ((runTrace cfg oracle messages).get ⟨i, hi⟩).stepIndex then
          (false, "max_steps_reached")
        else if ((runTrace cfg oracle messages).get ⟨i, hi⟩).stepIndex < MINIMUM_STEPS then
          (true, "minimum_steps_required")
        else if cfg.target ≤ ((runTrace cfg oracle messages).get ⟨i, hi⟩).score then
          (false, "target_reached")
        else (true, "continuing"))) ∧
    (cfg.maxSteps < MINIMUM_STEPS →
      (runState cfg oracle messages).allSteps.length ≤ cfg.maxSteps) := by
  constructor
  · intro i hi
    have h := (loopFuel_records cfg oracle messages cfg.maxSteps initialState
      (runState cfg oracle messages) (runTrace cfg oracle messages)
      (runLoop_eq cfg oracle messages)).2.1
    have hmem : (runTrace cfg oracle messages).get ⟨i, hi⟩ ∈ runTrace cfg oracle messages :=
      List.get_mem _ _ hi
    exact ((h _ hmem).2.2).trans rfl
  · intro _
    obtain ⟨h1, _, h3⟩ := run_counts cfg oracle messages
    have hu := run_upper cfg oracle messages
    cases hA : (runState cfg oracle messages).aborted <;> rw [hA] at h3 <;>
      simp at h3 <;> omega

/-- C1 exercised: in the degenerate configuration `maxSteps = 2 < 4`, a
session with an always-successful generator records the chain decisions
("minimum_steps_required" then "max_steps_reached") and stops at 2 steps. -/
theorem C1_termination_priority_chain_witness :
    (0 < (runTrace ⟨3/4, 2⟩ goodOracle []).length ∧
      (((runTrace ⟨3/4, 2⟩ goodOracle []).get ⟨0, by decide⟩).cont,
       ((runTrace ⟨3/4, 2⟩ goodOracle []).get ⟨0, by decide⟩).reason) =
        (if (2 : ℕ) ≤ ((runTrace ⟨3/4, 2⟩ goodOracle []).get ⟨0, by decide⟩).stepIndex then
          (false, "max_steps_reached")
        else if ((runTrace ⟨3/4, 2⟩ goodOracle []).get ⟨0, by decide⟩).stepIndex < MINIMUM_STEPS then
          (true, "minimum_steps_required")
        else if (3/4 : ℚ) ≤ ((runTrace ⟨3/4, 2⟩ goodOracle []).get ⟨0, by decide⟩).score then
          (false, "target_reached")
        else (true, "continuing"))) ∧
    (2 : ℕ) < MINIMUM_STEPS ∧
    (runState ⟨3/4, 2⟩ goodOracle []).allSteps.length ≤ 2 :=
  ⟨⟨by decide, (C1_termination_priority_chain ⟨3/4, 2⟩ goodOracle []).1 0 (by decide)⟩,
   by decide,
   (C1_termination_priority_chain ⟨3/4, 2⟩ goodOracle []).2 (by decide)⟩

/-- C2 is refuted as stated: with `maxSteps = 2` and an
always-successful step generator, the session completes with no fatal
error yet produces only 2 steps, fewer than `minimumSteps = 4`. -/
theorem C2_counterexample :
    (runState ⟨3/4, 2⟩ goodOracle []).aborted = false ∧
    (runState ⟨3/4, 2⟩ goodOracle []).allSteps.length = 2 ∧
    (runState ⟨3/4, 2⟩ goodOracle []).allSteps.length < MINIMUM_STEPS := by
  exact ⟨by decide, by decide, by decide⟩

/-- C2 amended: provided `minimumSteps <= maxSteps`, the number of steps
produced never exceeds `maxSteps`, and is at least `minimumSteps` (4)
unless a fatal per-step error aborted the loop early. -/
theorem C2_step_count_bounds (cfg : Config) (oracle : ℕ → IterationInput)
    (messages : List Message) (hmin : MINIMUM_STEPS ≤ cfg.maxSteps) :
    (runState cfg oracle messages).allSteps.length ≤ cfg.maxSteps ∧
    ((runState cfg oracle messages).aborted = false →
      MINIMUM_STEPS ≤ (runState cfg oracle messages).allSteps.length) := by
  obtain ⟨h1, _, h3⟩ := run_counts cfg oracle messages
  have hu := run_upper cfg oracle messages
  constructor
  · cases hA : (runState cfg oracle messages).aborted <;> rw [hA] at h3 <;>
      simp at h3 <;> omega
  · intro hA
    rw [hA] at h3
    simp at h3
    rcases run_exit cfg oracle messages with he | he | he
    · rw [hA] at he
      cases he
    · omega
    · omega

/-- C2 amended, exercised: with the default-like configuration
`maxSteps = 10` and an always-successful generator the bounds hold. -/
theorem C2_step_count_bounds_witness :
    MINIMUM_STEPS ≤ (10 : ℕ) ∧
    ((runState ⟨3/4, 10⟩ goodOracle []).allSteps.length ≤ 10 ∧
     ((runState ⟨3/4, 10⟩ goodOracle []).aborted = false →
       MINIMUM_STEPS ≤ (runState ⟨3/4, 10⟩ goodOracle []).allSteps.length)) :=
  ⟨by decide, C2_step_count_bounds ⟨3/4, 10⟩ goodOracle [] (by decide)⟩

/-- The deterministic fallback message is never empty. -/
theorem fallbackFeedback_ne_empty (s : DharmaScores) (target : ℚ) :
    fallbackFeedback s target ≠ "" := by
  unfold fallbackFeedback
  by_cases hm : s.mindfulness < target <;>
  by_cases he : s.emptiness < target <;>
  by_cases hn : s.nonDuality < target <;>
  by_cases hb : s.boundlessCare < target <;>
    simp only [hm, he, hn, hb, if_true, if_false, List.nil_append, List.append_nil,
      List.cons_append, List.singleton_append] <;>
    decide

/-- C9: when the feedback service call fails, the feedback generator
returns, without propagating the failure, a non-empty string that depends
only on the current sub-scores and the target: two failing invocations
with the same scores and target — even with different histories — return
the identical fallback text. -/
theorem C9_fallback_feedback_pure (s : DharmaScores) (target : ℚ)
    (hist1 hist2 : List ScoreHistoryEntry) :
    generateDharmaFeedback .fail s hist1 target =
      generateDharmaFeedback .fail s hist2 target ∧
    generateDharmaFeedback .fail s hist1 target = fallbackFeedback s target ∧
    generateDharmaFeedback .fail s hist1 target ≠ "" :=
  ⟨rfl, rfl, fallbackFeedback_ne_empty s target⟩

/-- C8: for sub-scores within [0,1], the aggregate equals the arithmetic
mean of the four sub-scores and itself lies in [0,1]. -/
theorem C8_mean_in_range (s : DharmaScores)
    (h1 : 0 ≤ s.mindfulness) (h2 : s.mindfulness ≤ 1)
    (h3 : 0 ≤ s.emptiness) (h4 : s.emptiness ≤ 1)
    (h5 : 0 ≤ s.nonDuality) (h6 : s.nonDuality ≤ 1)
    (h7 : 0 ≤ s.boundlessCare) (h8 : s.boundlessCare ≤ 1) :
    mean s = (s.mindfulness + s.emptiness + s.nonDuality + s.boundlessCare) / 4 ∧
    0 ≤ mean s ∧ mean s ≤ 1 := by
  refine ⟨rfl, ?_, ?_⟩ <;> unfold mean <;> linarith

/-- C8 exercised at scores (0.9, 0.9, 0.9, 0.9). -/
theorem C8_mean_in_range_witness :
    ((0 : ℚ) ≤ 9/10 ∧ (9/10 : ℚ) ≤ 1) ∧
    (mean ⟨9/10, 9/10, 9/10, 9/10⟩ = (9/10 + 9/10 + 9/10 + 9/10) / 4 ∧
     0 ≤ mean ⟨9/10, 9/10, 9/10, 9/10⟩ ∧ mean ⟨9/10, 9/10, 9/10, 9/10⟩ ≤ 1) :=
  ⟨⟨by decide, by decide⟩,
   C8_mean_in_range ⟨9/10, 9/10, 9/10, 9/10⟩ (by decide) (by decide) (by decide)
     (by decide) (by decide) (by decide) (by decide) (by decide)⟩

end Dharma

namespace Dharma

/-- C3 is refuted as stated: a response whose extractable payload carries
a sub-score outside [0,1] (here mindfulness = 1.5) is NOT treated as the
parsing-failed case — schema validation happens outside the inner parse
fallback, so it throws into the outer per-step catch: the session aborts
with no step recorded, instead of continuing with a degraded step. -/
theorem C3_counterexample :
    (runState ⟨3/4, 10⟩ badOracle []).aborted = true ∧
    (runState ⟨3/4, 10⟩ badOracle []).allSteps = [] ∧
    (runTrace ⟨3/4, 10⟩ badOracle []).length = 0 := by
  exact ⟨by decide, by decide, by decide⟩

/-- C3 amended: a response with no extractable structured payload is
replaced by a degraded step (raw response text as content, generic
title, all four sub-scores defaulted to 0.5, a rationale flagging that
parsing failed) and the loop continues rather than aborting; but a
response whose extracted payload has a sub-score outside [0,1] fails
schema validation, which is propagated to the outer per-step catch as a
fatal error that ends the loop with no step recorded for it. -/
theorem C3_parse_recovery_validation_abort (cfg : Config) (inp : IterationInput)
    (messages : List Message) (st : SessionState) (text : String) :
    (inp.genOutcome = .resp text none →
      (iterate cfg inp messages st).state.aborted = false ∧
      ∃ e : EnrichedStep,
        (iterate cfg inp messages st).state.allSteps = st.allSteps ++ [e] ∧
        e.title = "Reasoning Step " ++ toString (st.stepIndex + 1) ∧
        e.content = text ∧
        e.dharma = ⟨1/2, 1/2, 1/2, 1/2⟩ ∧
        e.rationale = "Auto-generated (parsing failed)") ∧
    (∀ p : StepPayload, inp.genOutcome = .resp text (some p) →
      validScores p.dharma = false →
      (iterate cfg inp messages st).state.aborted = true ∧
      (iterate cfg inp messages st).cont = false ∧
      (iterate cfg inp messages st).state.allSteps = st.allSteps) := by
  constructor
  · intro h
    have hv : validScores (extractStep (st.stepIndex + 1) text none).dharma = true :=
      (by decide : validScores ⟨1/2, 1/2, 1/2, 1/2⟩ = true)
    rw [iterate_success cfg inp messages st text none h hv]
    refine ⟨rfl,
      successStep cfg inp.feedbackSvc st (extractStep (st.stepIndex + 1) text none),
      rfl, rfl, rfl, rfl, rfl⟩
  · intro p h hv
    rw [iterate_invalid cfg inp messages st text (some p) h (by simpa [extractStep] using hv)]
    exact ⟨rfl, rfl, rfl⟩

/-- C3 amended, exercised: a payload-free response at step 1 yields the
degraded step and no abort. -/
theorem C3_parse_recovery_validation_abort_witness :
    ((⟨.resp "freetext" none, .ok "fb"⟩ : IterationInput).genOutcome = .resp "freetext" none ∧
      (iterate ⟨3/4, 10⟩ ⟨.resp "freetext" none, .ok "fb"⟩ [] initialState).state.aborted = false) ∧
    (validScores badPayload.dharma = false ∧
      (iterate ⟨3/4, 10⟩ ⟨.resp "raw" (some badPayload), .ok "fb"⟩ [] initialState).state.aborted = true) :=
  ⟨⟨rfl, ((C3_parse_recovery_validation_abort ⟨3/4, 10⟩ ⟨.resp "freetext" none, .ok "fb"⟩
      [] initialState "freetext").1 rfl).1⟩,
   ⟨by decide, ((C3_parse_recovery_validation_abort ⟨3/4, 10⟩ ⟨.resp "raw" (some badPayload), .ok "fb"⟩
      [] initialState "raw").2 badPayload rfl (by decide)).1⟩⟩

/-- C4: whenever the loop completes a step with `minimumSteps <=
stepIndex < maxSteps` whose aggregate score reaches the target, it stops
at that step with reason "target_reached" and generates no additional
step afterward. -/
theorem C4_target_reached_stops (cfg : Config) (oracle : ℕ → IterationInput)
    (messages : List Message) (i : ℕ) (hi : i < (runTrace cfg oracle messages).length)
    (hmin : MINIMUM_STEPS ≤ ((runTrace cfg oracle messages).get ⟨i, hi⟩).stepIndex)
    (hmax : ((runTrace cfg oracle messages).get ⟨i, hi⟩).stepIndex < cfg.maxSteps)
    (htar : cfg.target ≤ ((runTrace cfg oracle messages).get ⟨i, hi⟩).score) :
    ((runTrace cfg oracle messages).get ⟨i, hi⟩).cont = false ∧
    ((runTrace cfg oracle messages).get ⟨i, hi⟩).reason = "target_reached" ∧
    i + 1 = (runTrace cfg oracle messages).length := by
  obtain ⟨hMapIdx, hMem, hCont⟩ := loopFuel_records cfg oracle messages cfg.maxSteps
    initialState (runState cfg oracle messages) (runTrace cfg oracle messages)
    (runLoop_eq cfg oracle messages)
  have hdec := (hMem _ (List.get_mem _ _ hi)).2.2
  unfold decideTermination at hdec
  rw [if_neg (by omega), if_neg (by omega), if_pos htar, Prod.mk.injEq] at hdec
  obtain ⟨hc, hr⟩ := hdec
  refine ⟨hc, hr, ?_⟩
  by_contra hne
  have hlt : i + 1 < (runTrace cfg oracle messages).length := by omega
  have := hCont i hi hlt
  rw [hc] at this
  cases this

/-- C4 exercised: with target 0.75, maxSteps 10 and a generator always
scoring 0.9, the run stops exactly at step 4 with "target_reached". -/
theorem C4_target_reached_stops_witness :
    (MINIMUM_STEPS ≤ ((runTrace ⟨3/4, 10⟩ goodOracle []).get ⟨3, by decide⟩).stepIndex ∧
     ((runTrace ⟨3/4, 10⟩ goodOracle []).get ⟨3, by decide⟩).stepIndex < 10 ∧
     (3/4 : ℚ) ≤ ((runTrace ⟨3/4, 10⟩ goodOracle []).get ⟨3, by decide⟩).score) ∧
    (((runTrace ⟨3/4, 10⟩ goodOracle []).get ⟨3, by decide⟩).cont = false ∧
     ((runTrace ⟨3/4, 10⟩ goodOracle []).get ⟨3, by decide⟩).reason = "target_reached" ∧
     3 + 1 = (runTrace ⟨3/4, 10⟩ goodOracle []).length) :=
  ⟨⟨by decide, by decide, by decide⟩,
   C4_target_reached_stops ⟨3/4, 10⟩ goodOracle [] 3 (by decide) (by decide) (by decide)
     (by decide)⟩

/-- C5: the history passed to the feedback generator for step N = i+1 is
exactly the first N-1 entries of the session's score history — their
step indices are 1, …, N-1 in order — and never contains the entry for
step N itself. -/
theorem C5_feedback_history_exact (cfg : Config) (oracle : ℕ → IterationInput)
    (messages : List Message) (i : ℕ) (hi : i < (runTrace cfg oracle messages).length) :
    ((runTrace cfg oracle messages).get ⟨i, hi⟩).stepIndex = i + 1 ∧
    ((runTrace cfg oracle messages).get ⟨i, hi⟩).historyPassed =
      (runState cfg oracle messages).scoreHistory.take i ∧
    ((runTrace cfg oracle messages).get ⟨i, hi⟩).historyPassed.map (fun e => e.step) =
      List.range' 1 i ∧
    ((runTrace cfg oracle messages).get ⟨i, hi⟩).stepIndex ∉
      ((runTrace cfg oracle messages).get ⟨i, hi⟩).historyPassed.map (fun e => e.step) := by
  have hstep := run_trace_stepIndex cfg oracle messages i hi
  obtain ⟨hdecomp, hrec⟩ := loopFuel_history cfg oracle messages cfg.maxSteps initialState
    (runState cfg oracle messages) (runTrace cfg oracle messages)
    (by simp [initialState]) (by simp [initialState]) (runLoop_eq cfg oracle messages)
  have h := hrec i hi
  simp only [initialState, Nat.zero_add] at h
  refine ⟨hstep, h.2, h.1, ?_⟩
  rw [hstep, h.1]
  intro hmem
  rw [List.mem_range'] at hmem
  obtain ⟨j, hj, hj2⟩ := hmem
  omega

/-- C5 exercised at step 3 of a 4-step session. -/
theorem C5_feedback_history_exact_witness :
    2 < (runTrace ⟨3/4, 10⟩ goodOracle []).length ∧
    (((runTrace ⟨3/4, 10⟩ goodOracle []).get ⟨2, by decide⟩).stepIndex = 3 ∧
     ((runTrace ⟨3/4, 10⟩ goodOracle []).get ⟨2, by decide⟩).historyPassed =
       (runState ⟨3/4, 10⟩ goodOracle []).scoreHistory.take 2 ∧
     ((runTrace ⟨3/4, 10⟩ goodOracle []).get ⟨2, by decide⟩).historyPassed.map (fun e => e.step) =
       List.range' 1 2 ∧
     ((runTrace ⟨3/4, 10⟩ goodOracle []).get ⟨2, by decide⟩).stepIndex ∉
       ((runTrace ⟨3/4, 10⟩ goodOracle []).get ⟨2, by decide⟩).historyPassed.map (fun e => e.step)) :=
  ⟨by decide, C5_feedback_history_exact ⟨3/4, 10⟩ goodOracle [] 2 (by decide)⟩

end Dharma

namespace Dharma

/-- C6: no feedback note is injected before generating step 1; and for
every N >= 1, the note injected before generating step N+1 is present
exactly when step N's feedback string is non-empty, and is then that
exact feedback attributed to step N, placed in the context right before
the generate-step instruction. -/
theorem C6_feedback_injection_exact (cfg : Config) (oracle : ℕ → IterationInput)
    (messages : List Message) :
    (∀ h0 : 0 < (runTrace cfg oracle messages).length,
      ((runTrace cfg oracle messages).get ⟨0, h0⟩).injectedNote = none) ∧
    (∀ (i : ℕ) (h1 : i < (runTrace cfg oracle messages).length)
        (h2 : i + 1 < (runTrace cfg oracle messages).length),
      ((runTrace cfg oracle messages).get ⟨i + 1, h2⟩).injectedNote =
        (if ((runTrace cfg oracle messages).get ⟨i, h1⟩).feedback ≠ "" then
          some ⟨"assistant", "[Server Feedback from Step " ++
            toString ((runTrace cfg oracle messages).get ⟨i, h1⟩).stepIndex ++ "]: " ++
            ((runTrace cfg oracle messages).get ⟨i, h1⟩).feedback⟩
        else none) ∧
      ((runTrace cfg oracle messages).get ⟨i + 1, h2⟩).context =
        messages ++ ((runTrace cfg oracle messages).get ⟨i + 1, h2⟩).injectedNote.toList ++
          [⟨"user", genPrompt ((runTrace cfg oracle messages).get ⟨i + 1, h2⟩).stepIndex
            cfg.maxSteps ((runTrace cfg oracle messages).get ⟨i, h1⟩).feedback⟩]) := by
  obtain ⟨hMapIdx, hMem, hCont⟩ := loopFuel_records cfg oracle messages cfg.maxSteps
    initialState (runState cfg oracle messages) (runTrace cfg oracle messages)
    (runLoop_eq cfg oracle messages)
  obtain ⟨hHead, hChain⟩ := loopFuel_chain cfg oracle messages cfg.maxSteps
    initialState (runState cfg oracle messages) (runTrace cfg oracle messages)
    (runLoop_eq cfg oracle messages)
  constructor
  · intro h0
    have h := (hMem _ (List.get_mem _ _ h0)).1
    have hstep := run_trace_stepIndex cfg oracle messages 0 h0
    rw [hstep] at h
    rw [h]
    simp [mkFbNote]
  · intro i h1 h2
    have hPrev := hChain i h1 h2
    have hNote := (hMem _ (List.get_mem _ _ h2)).1
    have hCtx := (hMem _ (List.get_mem _ _ h2)).2.1
    have hstep1 := run_trace_stepIndex cfg oracle messages (i + 1) h2
    have hstep0 := run_trace_stepIndex cfg oracle messages i h1
    constructor
    · rw [hNote, hstep1, hPrev, hstep0]
      have h12 : 1 < i + 1 + 1 := by omega
      by_cases hf : ((runTrace cfg oracle messages).get ⟨i, h1⟩).feedback = ""
      · simp [mkFbNote, hf]
      · simp [mkFbNote, hf, h12]
    · rw [hCtx, hPrev]

/-- C6 exercised: in a 4-step session with feedback "fb" for every step,
the note before step 2 is exactly the attributed "fb" note, placed before
the generate-step instruction; no note precedes step 1. -/
theorem C6_feedback_injection_exact_witness :
    (0 < (runTrace ⟨3/4, 10⟩ goodOracle []).length ∧
      ((runTrace ⟨3/4, 10⟩ goodOracle []).get ⟨0, by decide⟩).injectedNote = none) ∧
    (1 < (runTrace ⟨3/4, 10⟩ goodOracle []).length ∧
      ((runTrace ⟨3/4, 10⟩ goodOracle []).get ⟨0 + 1, by decide⟩).injectedNote =
        (if ((runTrace ⟨3/4, 10⟩ goodOracle []).get ⟨0, by decide⟩).feedback ≠ "" then
          some ⟨"assistant", "[Server Feedback from Step " ++
            toString ((runTrace ⟨3/4, 10⟩ goodOracle []).get ⟨0, by decide⟩).stepIndex ++ "]: " ++
            ((runTrace ⟨3/4, 10⟩ goodOracle []).get ⟨0, by decide⟩).feedback⟩
        else none)) :=
  ⟨⟨by decide, (C6_feedback_injection_exact ⟨3/4, 10⟩ goodOracle []).1 (by decide)⟩,
   ⟨by decide, ((C6_feedback_injection_exact ⟨3/4, 10⟩ goodOracle []).2 0 (by decide)
      (by decide)).1⟩⟩

/-- C7: the outbound stream consists of the reasoning-step events
followed by exactly one text event; that text carries the synthesized
answer when the synthesis call succeeds and the fixed diagnostic message
when it fails — the session completes either way. -/
theorem C7_single_final_text_event (cfg : Config) (oracle : ℕ → IterationInput)
    (messages : List Message) (synth : ServiceResult) :
    (∃ pre : List Event,
      runEvents cfg oracle messages synth = pre ++ [Event.text (synthesisText synth)] ∧
      ∀ e ∈ pre, ∃ s : EnrichedStep, e = Event.reasoningStep s) ∧
    (∀ answer : String, synth = .ok answer → synthesisText synth = answer) ∧
    (synth = .fail → synthesisText synth =
      "Error generating final synthesis. Please review the reasoning steps above.") := by
  refine ⟨⟨(runState cfg oracle messages).events, rfl, ?_⟩, ?_, ?_⟩
  · obtain ⟨new, h1, h2⟩ := loopFuel_events cfg oracle messages cfg.maxSteps initialState
      (runState cfg oracle messages) (runTrace cfg oracle messages)
      (runLoop_eq cfg oracle messages)
    simp only [initialState, List.nil_append] at h1 h2
    intro e he
    rw [h2] at he
    simp only [List.mem_map] at he
    obtain ⟨s, _, rfl⟩ := he
    exact ⟨s, rfl⟩
  · intro answer h
    rw [h]
    rfl
  · intro h
    rw [h]
    rfl

/-- C10: when a fatal error aborts iteration N, the step counter keeps
the value N (incremented before generation) while only N-1 steps were
recorded; the synthesis prompt then claims N completed reasoning steps
while listing only the N-1 recorded ones. -/
theorem C10_abort_counter_offset (cfg : Config) (oracle : ℕ → IterationInput)
    (messages : List Message) (h : (runState cfg oracle messages).aborted = true) :
    (runState cfg oracle messages).stepIndex =
      (runState cfg oracle messages).allSteps.length + 1 ∧
    synthesisPrompt (runState cfg oracle messages) =
      "You have completed " ++
      toString ((runState cfg oracle messages).allSteps.length + 1) ++
      " reasoning steps:\n\n" ++
      String.intercalate "\n" ((runState cfg oracle messages).allSteps.enum.map (fun p =>
        "\nStep " ++ toString (p.1 + 1) ++ ": " ++ p.2.title ++ "\n" ++ p.2.content ++ "\n")) ++
      "\n\nNow provide a clear, concise final answer that synthesizes all of your reasoning. \nBe direct and actionable. This is your final response to the user." := by
  obtain ⟨h1, _, h3⟩ := run_counts cfg oracle messages
  rw [h] at h3
  simp at h3
  have hidx : (runState cfg oracle messages).stepIndex =
      (runState cfg oracle messages).allSteps.length + 1 := by omega
  refine ⟨hidx, ?_⟩
  unfold synthesisPrompt
  rw [hidx]

/-- C10 exercised: the generator throws at iteration 2; the counter says
2 while a single step was recorded. -/
theorem C10_abort_counter_offset_witness :
    (runState ⟨3/4, 10⟩ fatalAt2Oracle []).aborted = true ∧
    (runState ⟨3/4, 10⟩ fatalAt2Oracle []).stepIndex =
      (runState ⟨3/4, 10⟩ fatalAt2Oracle []).allSteps.length + 1 ∧
    (runState ⟨3/4, 10⟩ fatalAt2Oracle []).allSteps.length = 1 :=
  ⟨by decide,
   (C10_abort_counter_offset ⟨3/4, 10⟩ fatalAt2Oracle [] (by decide)).1,
   by decide⟩

end Dharma

namespace Dharma

/-- C7 exercised: with a failing synthesis call the stream still ends
with exactly one text event carrying the fixed diagnostic. -/
theorem C7_single_final_text_event_witness :
    (∃ pre : List Event,
      runEvents ⟨3/4, 10⟩ goodOracle [] .fail =
        pre ++ [Event.text (synthesisText .fail)] ∧
      ∀ e ∈ pre, ∃ s : EnrichedStep, e = Event.reasoningStep s) ∧
    synthesisText .fail =
      "Error generating final synthesis. Please review the reasoning steps above." :=
  ⟨(C7_single_final_text_event ⟨3/4, 10⟩ goodOracle [] .fail).1,
   (C7_single_final_text_event ⟨3/4, 10⟩ goodOracle [] .fail).2.2 rfl⟩

end Dharma
